import Mathlib

/-!
Verification of the NASDAQ-100 volatility dashboard core.

The program consists of two source files:
* `src/components/Dashboard.tsx` — React component with the metrics
  aggregator (`calculateMetrics`), the fetch/state-update logic
  (`fetchData`) and the scheduling effect (`useEffect` with a single
  `setTimeout`).
* an unnamed Next.js API route (`handler`) that queries Yahoo Finance
  and maps the raw arrays into `{ date, volatility, high, low }` rows.

JavaScript numbers are modelled as rationals (ℚ); the claims under test
are arithmetic identities and state-update frame properties that do not
hinge on floating-point rounding.  Dates inside data rows are modelled
as epoch numbers (the ISO-8601 string rendering in the source is
presentational).  Wall-clock timestamps for the scheduler are modelled
as a (day, hour, minute, second, ms) record mirroring the `Date`
accessors the source uses (`setHours(5,0,0,0)`, `getHours()`,
`setDate(getDate()+1)`).
-/

namespace Nasdaq

/-- `interface DailyData { date; high; low; volatility }` from Dashboard.tsx.
The `date` field is the epoch timestamp underlying the ISO string. -/
structure DailyData where
  date : Nat
  high : ℚ
  low : ℚ
  volatility : ℚ
deriving DecidableEq, Repr

/-- `interface Metrics` from Dashboard.tsx: the eight-field snapshot. -/
structure Metrics where
  current : ℚ
  avg7d : ℚ
  avg30d : ℚ
  max7d : ℚ
  max30d : ℚ
  avg100d : ℚ
  min7d : ℚ
  min30d : ℚ
deriving DecidableEq, Repr

/-- JavaScript `arr.slice(-n)` for `n > 0`: the trailing `min(length, n)`
elements. -/
def sliceLast (n : Nat) (l : List α) : List α := l.drop (l.length - n)

/-- `arr.reduce((a, b) => a + b, 0)`. -/
def sumQ (l : List ℚ) : ℚ := l.foldl (· + ·) 0

/-- `Math.max(...arr)` for the non-empty arrays it is applied to
(the empty case, `-Infinity` in JavaScript, is never reached because
`calculateMetrics` returns early on an empty series). -/
def spreadMax : List ℚ → ℚ
  | [] => 0
  | x :: xs => xs.foldl max x

/-- `Math.min(...arr)` for the non-empty arrays it is applied to. -/
def spreadMin : List ℚ → ℚ
  | [] => 0
  | x :: xs => xs.foldl min x

/-- `arr[arr.length - 1]` on a non-empty array (`getD` default unreachable
under the caller's non-emptiness guard). -/
def lastElem (l : List ℚ) : ℚ := l.getD (l.length - 1) 0

/-- `calculateMetrics` from Dashboard.tsx.  The early `return` on an empty
series (`if (!stockData.length) return;`) is modelled as `none`; the
`setMetrics({...})` payload is the `some` value. -/
def calculateMetrics (stockData : List DailyData) : Option Metrics :=
  if stockData.length = 0 then none
  else
    let volatilities := stockData.map (fun day => day.volatility)
    let last7 := sliceLast 7 volatilities
    let last30 := sliceLast 30 volatilities
    let last100 := sliceLast 100 volatilities
    some
      { current := lastElem volatilities
        avg7d := sumQ last7 / 7
        avg30d := sumQ last30 / 30
        max7d := spreadMax last7
        max30d := spreadMax last30
        avg100d := sumQ last100 / (last100.length : ℚ)
        min7d := spreadMin last7
        min30d := spreadMin last30 }

/-- A local wall-clock instant, mirroring the `Date` accessors the source
uses: `day` is an abstract calendar-day index (so `setDate(getDate()+1)`
is `day + 1`), the rest are the time-of-day components. -/
structure Timestamp where
  day : Nat
  hour : Nat
  minute : Nat
  second : Nat
  ms : Nat
deriving DecidableEq, Repr

/-- The `next5am` computation from `fetchData` (and repeated verbatim in
the mount effect): `next5am.setHours(5,0,0,0)` then
`if (new Date().getHours() >= 5) next5am.setDate(next5am.getDate() + 1)`. -/
def next5am (now : Timestamp) : Timestamp :=
  if now.hour ≥ 5 then ⟨now.day + 1, 5, 0, 0, 0⟩ else ⟨now.day, 5, 0, 0, 0⟩

/-- The component state touched by `fetchData`: the `data`, `metrics`,
`lastUpdateTime` and `nextUpdateTime` `useState` cells.  The `data` cell
holds a JavaScript value that is either an array of rows (`some`) or
`undefined` (`none`): `setData(result.data)` stores `undefined` when the
parsed body has no `data` field, which the API route's 500 error
response makes reachable. -/
structure DashboardState where
  data : Option (List DailyData)
  metrics : Metrics
  lastUpdateTime : Timestamp
  nextUpdateTime : Timestamp
deriving DecidableEq, Repr

/-- Outcome of `await fetch('/api/volatility')` + `await response.json()`:
* `thrown` — the network call or the JSON parse rejects, so the `try`
  body is abandoned before `setData` runs;
* `errorBody` — the response parses but carries no `data` array; this is
  what the API route produces on upstream failure (it responds
  `500 { error: ... }`, and `fetch` resolves on a 500), leaving
  `result.data === undefined`;
* `success d` — the body parses and `result.data` is the array `d`. -/
inductive FetchResult where
  | thrown
  | errorBody
  | success (data : List DailyData)
deriving DecidableEq, Repr

/-- One run of `fetchData` from Dashboard.tsx, as a state transformer.
On `success d`: `setData(result.data)`, `calculateMetrics(result.data)`
(which updates metrics only when the array is non-empty),
`setLastUpdateTime(new Date())`, and `setNextUpdateTime(next5am)`.
On `errorBody`: `setData(undefined)` executes, then
`calculateMetrics(undefined)` throws a TypeError at
`!stockData.length` before any `setMetrics`/`setLastUpdateTime`/
`setNextUpdateTime` call, landing in the `catch`; so the series cell is
overwritten with `undefined` and nothing else is written.
On `thrown` the `catch` block only calls `console.error`, so no state
cell is written at all. -/
def fetchData (now : Timestamp) (result : FetchResult) (s : DashboardState) :
    DashboardState :=
  match result with
  | .thrown => s
  | .errorBody => { s with data := none }
  | .success d =>
      { data := some d
        metrics := (calculateMetrics d).getD s.metrics
        lastUpdateTime := now
        nextUpdateTime := next5am now }

/-- `setMetrics` as seen through `calculateMetrics`: the stored snapshot
after invoking the aggregator on `stockData` when the previous snapshot
was `old`.  The early return on an empty array leaves `old` in place. -/
def storedMetricsAfter (stockData : List DailyData) (old : Metrics) : Metrics :=
  (calculateMetrics stockData).getD old

/-- The pending-timeout part of the scheduler state: `useEffect` arms a
single `setTimeout(fetchData, msUntil5am)`; once it has fired (or before
mount) there is no pending timer. -/
inductive TimerState where
  | armed (fireAt : Timestamp)
  | idle
deriving DecidableEq, Repr

/-- Observable scheduler history: how many times `fetchData` has run, and
whether a timeout is pending. -/
structure SchedulerState where
  fetchCount : Nat
  timer : TimerState
deriving DecidableEq, Repr

/-- The mount effect (`useEffect` in Dashboard.tsx): it calls `fetchData()`
once immediately, computes `msUntil5am` from the current time, and arms
one `setTimeout(fetchData, msUntil5am)`.  The effect runs once: its only
dependency, the `useCallback`-memoised `fetchData`, is referentially
stable. -/
def mountEffect (now : Timestamp) : SchedulerState :=
  { fetchCount := 1, timer := .armed (next5am now) }

/-- The pending timeout firing: the callback is `fetchData` itself, which
performs one fetch and arms no further timeout (neither `fetchData` nor
anything else calls `setTimeout` again, and the effect does not re-run).
Firing with no pending timer changes nothing. -/
def timerFire (s : SchedulerState) : SchedulerState :=
  match s.timer with
  | .armed _ => { fetchCount := s.fetchCount + 1, timer := .idle }
  | .idle => s

/-- The API route `handler` (unnamed source file), success path: given the
parallel arrays `timestamps`, `quotes.high`, `quotes.low` from the Yahoo
Finance response, build the `data` array.  Each row carries
`date = new Date(timestamp * 1000)` (epoch here), `volatility = high - low`
computed in the handler itself, plus `high` and `low`.  Out-of-range
indexing cannot occur under the upstream shape (parallel arrays of equal
length), which the claims' inputs respect. -/
def handlerData (timestamps : List Nat) (highs lows : List ℚ) :
    List DailyData :=
  (List.range timestamps.length).map fun index =>
    let high := highs.getD index 0
    let low := lows.getD index 0
    { date := timestamps.getD index 0 * 1000
      volatility := high - low
      high := high
      low := low }

/-- The `useState` initializer for `metrics` in Dashboard.tsx: all eight
fields zero. -/
def initialMetrics : Metrics :=
  { current := 0, avg7d := 0, avg30d := 0, max7d := 0, max30d := 0
    avg100d := 0, min7d := 0, min30d := 0 }

/-- Milliseconds elapsed since the start of a timestamp's calendar day. -/
def msOfDay (t : Timestamp) : Nat :=
  ((t.hour * 60 + t.minute) * 60 + t.second) * 1000 + t.ms

/-- The timestamp 05:00:00.000 on calendar day `d`. -/
def fiveAM (d : Nat) : Timestamp := ⟨d, 5, 0, 0, 0⟩

/-- Spec-side predicate: `t` is at or after 05:00:00.000 of its own
calendar day. -/
def atOrAfter5 (t : Timestamp) : Prop := msOfDay (fiveAM t.day) ≤ msOfDay t

instance (t : Timestamp) : Decidable (atOrAfter5 t) :=
  inferInstanceAs (Decidable (_ ≤ _))

/-- Spec-side predicate for claim C1 (divisor asymmetry): each average of
`m` is the sum of a trailing slice (a suffix of the volatility sequence of
length `min N W`) divided by the fixed constant for the 7- and 30-day
windows, and by the actual slice length for the 100-day window. -/
def DivisorDiscipline (stockData : List DailyData) (m : Metrics) : Prop :=
  ∃ s7 s30 s100 : List ℚ,
    s7.IsSuffix (stockData.map fun day => day.volatility) ∧
    s7.length = min stockData.length 7 ∧ m.avg7d = sumQ s7 / 7 ∧
    s30.IsSuffix (stockData.map fun day => day.volatility) ∧
    s30.length = min stockData.length 30 ∧ m.avg30d = sumQ s30 / 30 ∧
    s100.IsSuffix (stockData.map fun day => day.volatility) ∧
    s100.length = min stockData.length 100 ∧
    m.avg100d = sumQ s100 / (s100.length : ℚ)

/-- Spec-side predicate for claim C7: `lo ≤ hi`, both belong to the window
slice, and every slice element lies between them (hence both lie between
the slice's minimum and maximum). -/
def WithinWindow (slice : List ℚ) (lo hi : ℚ) : Prop :=
  lo ≤ hi ∧ hi ∈ slice ∧ lo ∈ slice ∧ ∀ x ∈ slice, lo ≤ x ∧ x ≤ hi

/-- The three-observation series from the spec's concrete scenario:
day highs/lows (100, 90), (110, 95), (105, 100) with volatilities
10, 15, 5. -/
def exampleSeries : List DailyData :=
  [⟨1, 100, 90, 10⟩, ⟨2, 110, 95, 15⟩, ⟨3, 105, 100, 5⟩]

/-- A concrete dashboard state holding three observations, used to probe
the failure path of `fetchData`. -/
def preFailureState : DashboardState :=
  { data := some exampleSeries
    metrics := initialMetrics
    lastUpdateTime := ⟨0, 12, 0, 0, 0⟩
    nextUpdateTime := ⟨1, 5, 0, 0, 0⟩ }

/-- A row whose `volatility` field disagrees with `high - low`, used to
show the core stores fetched rows verbatim without recomputing the
derived field. -/
def tamperedRow : DailyData := ⟨1, 100, 90, 999⟩

/-- A 100-observation series (volatility 1 each day). -/
def longSeries : List DailyData :=
  (List.range 100).map fun i => ⟨i, 1, 0, 1⟩

/-! ### Helper lemmas -/

theorem sliceLast_isSuffix (n : Nat) (l : List α) :
    (sliceLast n l).IsSuffix l :=
  List.drop_suffix _ _

theorem length_sliceLast (n : Nat) (l : List α) :
    (sliceLast n l).length = min l.length n := by
  simp only [sliceLast, List.length_drop]
  omega

theorem sliceLast_append (k : Nat) (P S : List α) (h : k ≤ S.length) :
    sliceLast k (P ++ S) = sliceLast k S := by
  unfold sliceLast
  have hlen : (P ++ S).length - k = P.length + (S.length - k) := by
    simp only [List.length_append]
    omega
  rw [hlen, List.drop_append]

theorem foldl_max_init_le (xs : List ℚ) (a : ℚ) : a ≤ xs.foldl max a := by
  induction xs generalizing a with
  | nil => exact le_refl a
  | cons x xs ih => exact le_trans (le_max_left a x) (ih (max a x))

theorem foldl_max_mem_le (xs : List ℚ) (a x : ℚ) (hx : x ∈ xs) :
    x ≤ xs.foldl max a := by
  induction xs generalizing a with
  | nil => cases hx
  | cons y ys ih =>
    rcases List.mem_cons.mp hx with rfl | hmem
    · exact le_trans (le_max_right a x) (foldl_max_init_le ys (max a x))
    · exact ih (max a y) hmem

theorem foldl_max_mem (xs : List ℚ) (a : ℚ) :
    xs.foldl max a = a ∨ xs.foldl max a ∈ xs := by
  induction xs generalizing a with
  | nil => exact Or.inl rfl
  | cons y ys ih =>
    rcases ih (max a y) with hcase | hcase
    · rcases max_choice a y with hmax | hmax
      · exact Or.inl (by rw [List.foldl_cons, hcase, hmax])
      · exact Or.inr (by rw [List.foldl_cons, hcase, hmax]; exact List.mem_cons_self y ys)
    · exact Or.inr (List.mem_cons_of_mem y hcase)

theorem foldl_min_le_init (xs : List ℚ) (a : ℚ) : xs.foldl min a ≤ a := by
  induction xs generalizing a with
  | nil => exact le_refl a
  | cons x xs ih => exact le_trans (ih (min a x)) (min_le_left a x)

theorem foldl_min_le_mem (xs : List ℚ) (a x : ℚ) (hx : x ∈ xs) :
    xs.foldl min a ≤ x := by
  induction xs generalizing a with
  | nil => cases hx
  | cons y ys ih =>
    rcases List.mem_cons.mp hx with rfl | hmem
    · exact le_trans (foldl_min_le_init ys (min a x)) (min_le_right a x)
    · exact ih (min a y) hmem

theorem foldl_min_mem (xs : List ℚ) (a : ℚ) :
    xs.foldl min a = a ∨ xs.foldl min a ∈ xs := by
  induction xs generalizing a with
  | nil => exact Or.inl rfl
  | cons y ys ih =>
    rcases ih (min a y) with hcase | hcase
    · rcases min_choice a y with hmin | hmin
      · exact Or.inl (by rw [List.foldl_cons, hcase, hmin])
      · exact Or.inr (by rw [List.foldl_cons, hcase, hmin]; exact List.mem_cons_self y ys)
    · exact Or.inr (List.mem_cons_of_mem y hcase)

theorem spreadMax_mem (l : List ℚ) (h : l ≠ []) : spreadMax l ∈ l := by
  cases l with
  | nil => exact absurd rfl h
  | cons x xs =>
    show xs.foldl max x ∈ x :: xs
    rcases foldl_max_mem xs x with hcase | hcase
    · rw [hcase]; exact List.mem_cons_self x xs
    · exact List.mem_cons_of_mem x hcase

theorem le_spreadMax (l : List ℚ) (x : ℚ) (hx : x ∈ l) : x ≤ spreadMax l := by
  cases l with
  | nil => cases hx
  | cons y ys =>
    show x ≤ ys.foldl max y
    rcases List.mem_cons.mp hx with rfl | hmem
    · exact foldl_max_init_le ys x
    · exact foldl_max_mem_le ys y x hmem

theorem spreadMin_mem (l : List ℚ) (h : l ≠ []) : spreadMin l ∈ l := by
  cases l with
  | nil => exact absurd rfl h
  | cons x xs =>
    show xs.foldl min x ∈ x :: xs
    rcases foldl_min_mem xs x with hcase | hcase
    · rw [hcase]; exact List.mem_cons_self x xs
    · exact List.mem_cons_of_mem x hcase

theorem spreadMin_le (l : List ℚ) (x : ℚ) (hx : x ∈ l) : spreadMin l ≤ x := by
  cases l with
  | nil => cases hx
  | cons y ys =>
    show ys.foldl min y ≤ x
    rcases List.mem_cons.mp hx with rfl | hmem
    · exact foldl_min_le_init ys x
    · exact foldl_min_le_mem ys y x hmem

theorem calculateMetrics_eq (stockData : List DailyData)
    (h : ¬ stockData.length = 0) :
    calculateMetrics stockData = some
      { current := lastElem (stockData.map fun day => day.volatility)
        avg7d := sumQ (sliceLast 7 (stockData.map fun day => day.volatility)) / 7
        avg30d := sumQ (sliceLast 30 (stockData.map fun day => day.volatility)) / 30
        max7d := spreadMax (sliceLast 7 (stockData.map fun day => day.volatility))
        max30d := spreadMax (sliceLast 30 (stockData.map fun day => day.volatility))
        avg100d := sumQ (sliceLast 100 (stockData.map fun day => day.volatility)) /
          ((sliceLast 100 (stockData.map fun day => day.volatility)).length : ℚ)
        min7d := spreadMin (sliceLast 7 (stockData.map fun day => day.volatility))
        min30d := spreadMin (sliceLast 30 (stockData.map fun day => day.volatility)) } := by
  simp only [calculateMetrics, if_neg h]

theorem lastElem_map (f : DailyData → ℚ) (l : List DailyData) (h : l ≠ []) :
    lastElem (l.map f) = f (l.getLast h) := by
  have h0 : 0 < l.length := List.length_pos.mpr h
  have hlt : l.length - 1 < (l.map f).length := by
    simp only [List.length_map]; omega
  rw [lastElem, List.length_map, List.getD_eq_getElem _ _ hlt, List.getElem_map,
    List.getLast_eq_getElem]

theorem lastElem_append (A B : List ℚ) (h : B ≠ []) :
    lastElem (A ++ B) = lastElem B := by
  have h0 : 0 < B.length := List.length_pos.mpr h
  have hlt : A.length + B.length - 1 < (A ++ B).length := by
    simp only [List.length_append]; omega
  have hltB : B.length - 1 < B.length := by omega
  rw [lastElem, lastElem, List.length_append,
    List.getD_eq_getElem _ _ hlt, List.getD_eq_getElem _ _ hltB,
    List.getElem_append_right (by omega)]
  congr 1
  omega

theorem sliceLast_ne_nil (n : Nat) (hn : 0 < n) (l : List α) (h : l ≠ []) :
    sliceLast n l ≠ [] := by
  intro he
  have hl := length_sliceLast n l
  rw [he] at hl
  have h0 : 0 < l.length := List.length_pos.mpr h
  simp only [List.length_nil] at hl
  omega

theorem spread_within (slice : List ℚ) (h : slice ≠ []) :
    WithinWindow slice (spreadMin slice) (spreadMax slice) := by
  refine ⟨?_, spreadMax_mem slice h, spreadMin_mem slice h,
    fun x hx => ⟨spreadMin_le slice x hx, le_spreadMax slice x hx⟩⟩
  exact spreadMin_le slice _ (spreadMax_mem slice h)

/-! ### Claim theorems -/

/-- C1: for every non-empty series, `avg7d` divides the sum of the
trailing `min(N,7)` volatilities by the fixed constant 7, `avg30d`
divides the sum of the trailing `min(N,30)` volatilities by the fixed
constant 30, and `avg100d` divides the sum of the trailing `min(N,100)`
volatilities by the actual number of elements of that slice. -/
theorem claim1_divisor_asymmetry (stockData : List DailyData)
    (h : stockData ≠ []) :
    ∃ m, calculateMetrics stockData = some m ∧ DivisorDiscipline stockData m := by
  have hlen : ¬ stockData.length = 0 := by
    simpa [List.length_eq_zero] using h
  refine ⟨_, calculateMetrics_eq stockData hlen, ?_⟩
  refine ⟨sliceLast 7 _, sliceLast 30 _, sliceLast 100 _,
    sliceLast_isSuffix _ _, ?_, rfl, sliceLast_isSuffix _ _, ?_, rfl,
    sliceLast_isSuffix _ _, ?_, rfl⟩ <;>
    rw [length_sliceLast, List.length_map]

/-- C1 witness: the length-3 series with volatilities [10, 15, 5] has
`avg7d = 30/7` and `avg100d = 30/3 = 10`. -/
theorem claim1_witness :
    (∃ m, calculateMetrics exampleSeries = some m ∧
      DivisorDiscipline exampleSeries m) ∧
    calculateMetrics exampleSeries =
      some { current := 5, avg7d := 30 / 7, avg30d := 1, max7d := 15
             max30d := 15, avg100d := 10, min7d := 5, min30d := 5 } :=
  ⟨claim1_divisor_asymmetry exampleSeries (by simp [exampleSeries]),
   by
    simp [exampleSeries, calculateMetrics, sliceLast, sumQ, spreadMax,
      spreadMin, lastElem]
    norm_num [max_def, min_def]⟩

/-- C6: for every non-empty series, the aggregator's `current` field is
the volatility of the last element. -/
theorem claim6_current_is_last (stockData : List DailyData)
    (h : stockData ≠ []) :
    ∃ m, calculateMetrics stockData = some m ∧
      m.current = (stockData.getLast h).volatility := by
  have hlen : ¬ stockData.length = 0 := by
    simpa [List.length_eq_zero] using h
  refine ⟨_, calculateMetrics_eq stockData hlen, ?_⟩
  exact lastElem_map _ stockData h

/-- C6 witness: on the concrete three-element series the `current` field
is 5, the last volatility. -/
theorem claim6_witness :
    (∃ m, calculateMetrics exampleSeries = some m ∧
      m.current = (exampleSeries.getLast (by simp [exampleSeries])).volatility) ∧
    (calculateMetrics exampleSeries).map (fun m => m.current) = some 5 :=
  ⟨claim6_current_is_last exampleSeries (by simp [exampleSeries]),
   by simp [exampleSeries, calculateMetrics, sliceLast, sumQ, spreadMax,
        spreadMin, lastElem]⟩

/-- C7: for every non-empty series and each window W ∈ {7, 30},
`maxWd ≥ minWd` and both lie within the trailing `min(N,W)` volatility
slice, bounding every element of it. -/
theorem claim7_minmax_bounds (stockData : List DailyData)
    (h : stockData ≠ []) :
    ∃ m, calculateMetrics stockData = some m ∧
      WithinWindow (sliceLast 7 (stockData.map fun day => day.volatility))
        m.min7d m.max7d ∧
      WithinWindow (sliceLast 30 (stockData.map fun day => day.volatility))
        m.min30d m.max30d := by
  have hlen : ¬ stockData.length = 0 := by
    simpa [List.length_eq_zero] using h
  have hmapne : stockData.map (fun day => day.volatility) ≠ [] := by
    simpa [List.map_eq_nil_iff] using h
  refine ⟨_, calculateMetrics_eq stockData hlen, ?_, ?_⟩
  · exact spread_within _ (sliceLast_ne_nil 7 (by omega) _ hmapne)
  · exact spread_within _ (sliceLast_ne_nil 30 (by omega) _ hmapne)

/-- C7 witness: on the concrete three-element series,
min7d = 5 ≤ 15 = max7d and both lie in the trailing slice. -/
theorem claim7_witness :
    ∃ m, calculateMetrics exampleSeries = some m ∧
      WithinWindow (sliceLast 7 (exampleSeries.map fun day => day.volatility))
        m.min7d m.max7d ∧
      WithinWindow (sliceLast 30 (exampleSeries.map fun day => day.volatility))
        m.min30d m.max30d :=
  claim7_minmax_bounds exampleSeries (by simp [exampleSeries])

/-- C8: invoked with an empty series (N = 0), the aggregator signals the
empty-series condition (the guarded early return, modelled as `none`)
instead of computing any metrics, so no division by zero occurs. -/
theorem claim8_empty_series (stockData : List DailyData)
    (h : stockData.length = 0) :
    calculateMetrics stockData = none := by
  simp [calculateMetrics, h]

/-- C8 witness: the empty list. -/
theorem claim8_witness :
    ([] : List DailyData).length = 0 ∧
    calculateMetrics ([] : List DailyData) = none :=
  ⟨rfl, claim8_empty_series [] rfl⟩

/-- C9: the snapshot depends only on the last 100 elements; prepending
older observations to a series of length at least 100 leaves every field
of the computed snapshot unchanged. -/
theorem claim9_last100_determines (P S : List DailyData)
    (h : 100 ≤ S.length) :
    calculateMetrics (P ++ S) = calculateMetrics S := by
  have hS0 : 0 < S.length := by omega
  have hlenPS : ¬ (P ++ S).length = 0 := by
    simp only [List.length_append]; omega
  have hlenS : ¬ S.length = 0 := by omega
  have hSne : S ≠ [] := by
    intro he; rw [he] at hS0; simp at hS0
  have hmapSne : S.map (fun day => day.volatility) ≠ [] := by
    simpa [List.map_eq_nil_iff] using hSne
  have hmapSlen : (7 ≤ (S.map fun day => day.volatility).length) ∧
      (30 ≤ (S.map fun day => day.volatility).length) ∧
      (100 ≤ (S.map fun day => day.volatility).length) := by
    simp only [List.length_map]; omega
  rw [calculateMetrics_eq _ hlenPS, calculateMetrics_eq _ hlenS]
  rw [List.map_append, sliceLast_append 7 _ _ hmapSlen.1,
    sliceLast_append 30 _ _ hmapSlen.2.1,
    sliceLast_append 100 _ _ hmapSlen.2.2,
    lastElem_append _ _ hmapSne]

/-- C9 witness: a single older observation prepended to a 100-element
series leaves the snapshot unchanged. -/
theorem claim9_witness :
    100 ≤ longSeries.length ∧
    calculateMetrics ([⟨555, 50, 0, 50⟩] ++ longSeries) =
      calculateMetrics longSeries :=
  ⟨by simp [longSeries],
   claim9_last100_determines [⟨555, 50, 0, 50⟩] longSeries (by simp [longSeries])⟩

/-- C10: invoking the aggregator on an empty series leaves the stored
metrics snapshot completely unchanged, whatever its previous value
(including the all-zero initial snapshot). -/
theorem claim10_empty_frame (old : Metrics) :
    storedMetricsAfter [] old = old :=
  rfl

/-- C5: for every valid current time `t`, the computed `nextUpdate` is
05:00:00.000 of the following calendar day when `t` is at or after 05:00
of its own day, and 05:00:00.000 of the same day otherwise. -/
theorem claim5_nextUpdate (t : Timestamp) (hm : t.minute < 60)
    (hs : t.second < 60) (hms : t.ms < 1000) :
    next5am t = if atOrAfter5 t then fiveAM (t.day + 1) else fiveAM t.day := by
  have hiff : atOrAfter5 t ↔ 5 ≤ t.hour := by
    simp only [atOrAfter5, msOfDay, fiveAM]
    constructor <;> intro hcmp <;> omega
  unfold next5am fiveAM
  simp only [hiff, ge_iff_le]

/-- C5 witness: now = 06:00 gives 05:00 tomorrow; now = 04:00 gives 05:00
the same day. -/
theorem claim5_witness :
    (next5am ⟨10, 6, 0, 0, 0⟩ =
      if atOrAfter5 ⟨10, 6, 0, 0, 0⟩ then fiveAM 11 else fiveAM 10) ∧
    (next5am ⟨10, 4, 0, 0, 0⟩ =
      if atOrAfter5 ⟨10, 4, 0, 0, 0⟩ then fiveAM 11 else fiveAM 10) ∧
    atOrAfter5 ⟨10, 6, 0, 0, 0⟩ ∧ ¬ atOrAfter5 ⟨10, 4, 0, 0, 0⟩ ∧
    next5am ⟨10, 6, 0, 0, 0⟩ = ⟨11, 5, 0, 0, 0⟩ ∧
    next5am ⟨10, 4, 0, 0, 0⟩ = ⟨10, 5, 0, 0, 0⟩ :=
  ⟨claim5_nextUpdate ⟨10, 6, 0, 0, 0⟩ (by decide) (by decide) (by decide),
   claim5_nextUpdate ⟨10, 4, 0, 0, 0⟩ (by decide) (by decide) (by decide),
   by decide, by decide, by decide, by decide⟩

/-- C2 counterexample: with a concrete prior state (three observations,
`lastUpdate` at day 0 noon) and a failing fetch at day-1 06:00, the
claim fails on both failure paths: on a thrown network error neither
`lastUpdate` nor `nextUpdate` is written (the `catch` only logs), and on
the API's 500 error body the series is not left as it was —
`setData(undefined)` overwrites it before `calculateMetrics(undefined)`
throws. -/
theorem claim2_counterexample :
    ¬ ((fetchData ⟨1, 6, 0, 0, 0⟩ .thrown preFailureState).data =
         preFailureState.data ∧
       (fetchData ⟨1, 6, 0, 0, 0⟩ .thrown preFailureState).lastUpdateTime =
         ⟨1, 6, 0, 0, 0⟩ ∧
       (fetchData ⟨1, 6, 0, 0, 0⟩ .thrown preFailureState).nextUpdateTime =
         next5am ⟨1, 6, 0, 0, 0⟩) ∧
    (fetchData ⟨1, 6, 0, 0, 0⟩ .errorBody preFailureState).data ≠
      preFailureState.data := by
  constructor
  · intro hclaim
    exact absurd hclaim.2.1 (by decide)
  · simp [fetchData, preFailureState]

/-- C2 amended: on every failed fetch attempt, `lastUpdate` is NOT set,
`nextUpdate` is NOT advanced, and the metrics snapshot is unchanged (the
retry relies solely on the one timer armed at mount).  The stored series
is left as it was when the failure is a thrown network/transport error,
but it is overwritten with the `undefined` missing `data` field when the
upstream responds with an error JSON body (the API route's 500
response). -/
theorem claim2_failure_effects (now : Timestamp) (s : DashboardState) :
    fetchData now .thrown s = s ∧
    (fetchData now .errorBody s).data = none ∧
    (fetchData now .errorBody s).metrics = s.metrics ∧
    (fetchData now .errorBody s).lastUpdateTime = s.lastUpdateTime ∧
    (fetchData now .errorBody s).nextUpdateTime = s.nextUpdateTime :=
  ⟨rfl, rfl, rfl, rfl, rfl⟩

/-- C3 counterexample: after mounting at day-0 06:00 and the single armed
timeout firing (the second fetch completing), no new wait is armed — the
scheduler state is a fixed point with exactly 2 fetches, so no daily
fetch ever happens again. -/
theorem claim3_counterexample :
    (timerFire (mountEffect ⟨0, 6, 0, 0, 0⟩)).timer = TimerState.idle ∧
    timerFire (timerFire (mountEffect ⟨0, 6, 0, 0, 0⟩)) =
      timerFire (mountEffect ⟨0, 6, 0, 0, 0⟩) ∧
    (timerFire (mountEffect ⟨0, 6, 0, 0, 0⟩)).fetchCount = 2 := by
  decide

/-- C3 amended: the scheduler fetches exactly once at mount and arms one
wait for the next 05:00; when that wait elapses exactly one further fetch
occurs and no new wait is armed, so the fetch count stays at 2 forever
(no indefinite daily cycle). -/
theorem claim3_two_fetches_only (now : Timestamp) (n : Nat) :
    mountEffect now = ⟨1, .armed (next5am now)⟩ ∧
    timerFire^[n + 1] (mountEffect now) = ⟨2, .idle⟩ := by
  refine ⟨rfl, ?_⟩
  induction n with
  | zero => rfl
  | succ k ih =>
    rw [Function.iterate_succ_apply', ih]
    rfl

/-- C4 counterexample: the API handler itself computes the `volatility`
field (`high - low`) of every row it outputs, and the core stores fetched
rows verbatim — even a row whose `volatility` disagrees with
`high − low` — so the core does not compute the derived field. -/
theorem claim4_counterexample :
    (handlerData [1, 2] [100, 110] [90, 95]).map (fun r => r.volatility) =
      [10, 15] ∧
    (fetchData ⟨0, 6, 0, 0, 0⟩ (.success [tamperedRow]) preFailureState).data =
      some [tamperedRow] ∧
    tamperedRow.volatility ≠ tamperedRow.high - tamperedRow.low := by
  refine ⟨?_, rfl, ?_⟩
  · simp [handlerData, List.range_succ]
    norm_num
  · simp [tamperedRow]
    norm_num

/-- C4 amended: the fetcher computes `volatility = high − low` for every
row it outputs (alongside date, high, low), and the core stores the
fetched array as-is without recomputing the derived field. -/
theorem claim4_fetcher_computes (timestamps : List Nat) (highs lows : List ℚ)
    (now : Timestamp) (d : List DailyData) (s : DashboardState) :
    (handlerData timestamps highs lows).map (fun r => r.volatility) =
      (handlerData timestamps highs lows).map (fun r => r.high - r.low) ∧
    (fetchData now (.success d) s).data = some d := by
  refine ⟨?_, rfl⟩
  simp [handlerData, List.map_map]

end Nasdaq
